import Mathlib

/-!
Verification of the financialrag ingestion-consensus and retrieval engine.

Shallow embedding of the relevant Python code:
- `scripts/hybrid_pdf_extractor.py` : consensus text extraction, title heuristic
- `scripts/groq_optimized_simple_rag.py` : confidence score
- `scripts/faiss_vector_store.py` : chunking, chunk ids, bulk insert, search,
  persistence load
- `scripts/chart_analyzer.py` : bar-chart detection and chart-type scoring

Machine-external collaborators (the embedding model, the FAISS engine, the
filesystem, OpenCV contour extraction) are modelled as abstract inputs; the
logic of the repository's own functions is translated statement by statement.
-/

/- ========================================================================
   Consensus text extraction (hybrid_pdf_extractor.py, consensus_text_extraction)
   ======================================================================== -/

/-- One page record as produced by an extraction strategy.  Mirrors the Python
dict with keys `sayfa`, `metin`, `confidence`, `validation`.  A present record
is modelled as `some`; an index past the end of a strategy's list is `none`
(matching `texts[i] if i < len(texts) else None`). -/
structure PageText where
  sayfa : Nat
  metin : String
  confidence : String
  validation : String
  deriving Repr, DecidableEq

/-- The per-page branch of `consensus_text_extraction`.  The Python truthiness
test `if text_plumber and text_alternative` is modelled by `Option` matching
(page dicts produced by the extractors are non-empty, hence truthy). -/
def consensusPage (tp ta : Option PageText) (pageNum : Nat) : PageText :=
  match tp, ta with
  | some p, some a =>
      if p.metin.length > a.metin.length then
        { p with confidence := "high", validation := "both_sources" }
      else
        { a with confidence := "high", validation := "both_sources" }
  | some p, none =>
      { p with confidence := "medium", validation := "pdfplumber_only" }
  | none, some a =>
      { a with confidence := "medium", validation := "alternative_only" }
  | none, none =>
      { sayfa := pageNum, metin := "", confidence := "low", validation := "no_source" }

/-- `HybridPDFExtractor.consensus_text_extraction`: iterate
`i in range(max(len(a), len(b)))`, page number `i + 1`. -/
def consensusTextExtraction (plumber alternative : List PageText) : List PageText :=
  (List.range (max plumber.length alternative.length)).map fun i =>
    consensusPage (plumber.get? i) (alternative.get? i) (i + 1)

/- ========================================================================
   Confidence score (groq_optimized_simple_rag.py, _calculate_confidence)
   ======================================================================== -/

/-- One retrieval result as consumed by `_calculate_confidence`: its
similarity and its chunk type. -/
structure RagResult where
  similarity : ℚ
  ctype : String
  deriving Repr, DecidableEq

/-- `GroqOptimizedSimpleRAG._calculate_confidence`.  Python float arithmetic is
modelled over `ℚ`; `set(...)` cardinality is the length of `List.dedup`. -/
def calculateConfidence (results : List RagResult) (responseLength : Nat) : ℚ :=
  if results.isEmpty then 0
  else
    let avgSimilarity := (results.map (fun r => r.similarity)).sum / results.length
    let lengthFactor := min ((responseLength : ℚ) / 500) 1
    let sourceFactor := min ((results.length : ℚ) / 5) 1
    let typeFactor := min (((results.map (fun r => r.ctype)).dedup.length : ℚ) / 3) 1
    min (avgSimilarity * (1 / 2) + lengthFactor * (1 / 5)
          + sourceFactor * (1 / 5) + typeFactor * (1 / 10)) 1

/- ========================================================================
   Theorems for C1 and C2
   ======================================================================== -/

/-- C1 counterexample input: primary (pdfplumber) page with text of length 2. -/
def c1PlumberPage : PageText :=
  { sayfa := 1, metin := "ab", confidence := "", validation := "" }

/-- C1 counterexample input: alternative page with different text of length 2. -/
def c1AltPage : PageText :=
  { sayfa := 1, metin := "cd", confidence := "", validation := "" }

/- ========================================================================
   Title heuristic (hybrid_pdf_extractor.py, extract_titles_from_text)
   ======================================================================== -/

/-- Python `needle in hay` substring test on character lists. -/
def strContains (needle : List Char) : List Char → Bool
  | [] => needle.isPrefixOf []
  | c :: t => needle.isPrefixOf (c :: t) || strContains needle t

/-- Python `str.lower()` (character-wise, sufficient for the ASCII inputs
exercised here). -/
def lowerStr (s : List Char) : List Char := s.map Char.toLower

/-- Python `str.isdigit()`: non-empty and all digits. -/
def pyIsDigit (s : List Char) : Bool := !s.isEmpty && s.all Char.isDigit

/-- The paragraph filter of `extract_titles_from_text`, exactly the code's
seven conjuncts: `len < 100`, `len > 10`, first char uppercase, does not end
with a period, does not start with a bullet, not purely numeric, and the two
keyword exclusions on the lowercased text (no `tablo`, no `grafik`). -/
def titleCandidate (para : String) : Bool :=
  decide (para.length < 100) && decide (10 < para.length)
  && (para.data.headD ' ').isUpper
  && !(para.data.getLastD ' ' == '.')
  && !(para.data.headD ' ' == '•')
  && !(pyIsDigit para.data)
  && !(strContains "tablo".data (lowerStr para.data))
  && !(strContains "grafik".data (lowerStr para.data))

/-- Modelled from the spec's words for comparison (refinement check): the
five-condition title rule of the spec, without the keyword exclusions. -/
def specTitleCandidate (para : String) : Bool :=
  decide (para.length < 100) && decide (10 < para.length)
  && (para.data.headD ' ').isUpper
  && !(para.data.getLastD ' ' == '.')
  && !(para.data.headD ' ' == '•')
  && !(pyIsDigit para.data)

/-- The first paragraph accepted by the code's filter (the loop breaks at the
first hit). -/
def firstTitle (paras : List String) : Option String := paras.find? titleCandidate

/-- The synthesized default title, literally `"Sayfa {n}"` in the code. -/
def defaultTitle (pageNum : Nat) : String := "Sayfa " ++ toString pageNum

/-- Input to `extract_titles_from_text`: a page number with its paragraphs. -/
structure TitlePage where
  sayfa : Nat
  paragraflar : List String
  deriving Repr, DecidableEq

/-- Membership test on the titles association list (Python `page_num in titles`). -/
def hasKey (titles : List (Nat × String)) (k : Nat) : Bool :=
  titles.any (fun kv => kv.1 == k)

/-- Python dict assignment `titles[k] = v` on the association list. -/
def setKey (titles : List (Nat × String)) (k : Nat) (v : String) : List (Nat × String) :=
  if hasKey titles k then titles.map (fun kv => if kv.1 == k then (k, v) else kv)
  else titles ++ [(k, v)]

/-- Association-list lookup mirroring Python dict access. -/
def lookupKey (titles : List (Nat × String)) (k : Nat) : Option String :=
  match titles with
  | [] => none
  | kv :: t => if kv.1 == k then some kv.2 else lookupKey t k

/-- One iteration of the page loop in `extract_titles_from_text`: store the
first accepted paragraph, then fall back to the default when the page number
is still absent. -/
def extractTitlesStep (titles : List (Nat × String)) (page : TitlePage) :
    List (Nat × String) :=
  let titles1 := match firstTitle page.paragraflar with
    | some t => setKey titles page.sayfa t
    | none => titles
  if hasKey titles1 page.sayfa then titles1
  else titles1 ++ [(page.sayfa, defaultTitle page.sayfa)]

/-- `HybridPDFExtractor.extract_titles_from_text` over its page list. -/
def extractTitlesFromText (pages : List TitlePage) : List (Nat × String) :=
  pages.foldl extractTitlesStep []

/- ========================================================================
   Chart classification (chart_analyzer.py)
   ======================================================================== -/

/-- Abstraction of one OpenCV contour as consumed by `_detect_bar_chart`: the
vertex count of its polygon approximation and its area.  Contour extraction
itself is an external library call; its outputs are the function's inputs. -/
structure Contour where
  approxVertices : Nat
  area : ℚ
  deriving Repr, DecidableEq

/-- The count of qualifying rectangles in `_detect_bar_chart`: contours whose
polygon approximation has 4 vertices and whose area exceeds 100. -/
def qualifyingRects (contours : List Contour) : Nat :=
  (contours.filter (fun c => c.approxVertices == 4 && decide (c.area > 100))).length

/-- `ChartAnalyzer._detect_bar_chart`: `min(0.8, rectangles / 10.0)` when at
least 3 qualifying rectangles were counted, else `0.0`. -/
def detectBarChart (contours : List Contour) : ℚ :=
  if 3 ≤ qualifyingRects contours then
    min (4 / 5 : ℚ) ((qualifyingRects contours : ℚ) / 10)
  else 0

/-- The detector loop of `_detect_chart_type`: keep the strictly highest score
over the ordered detector list, starting from `(None, 0.0)`. -/
def bestChart (scores : List (String × ℚ)) : Option String × ℚ :=
  scores.foldl (fun best s => if s.2 > best.2 then (some s.1, s.2) else best) (none, 0)

/-- `ChartAnalyzer._detect_chart_type` final thresholding: below 0.3 the result
is `(None, 0.0)`. -/
def detectChartType (scores : List (String × ℚ)) : Option String × ℚ :=
  let b := bestChart scores
  if b.2 < 3 / 10 then (none, 0) else b

/-- The detector score list in the dict order of `self.chart_types`, with the
bar score computed from the contours and the other three detectors' scores
supplied as inputs (they depend on external OpenCV calls). -/
def chartScores (contours : List Contour)
    (lineScore pieScore scatterScore : ℚ) : List (String × ℚ) :=
  [("bar_chart", detectBarChart contours), ("line_chart", lineScore),
   ("pie_chart", pieScore), ("scatter_plot", scatterScore)]

/-- A qualifying rectangular contour used by the C8 theorems. -/
def c8Rect : Contour := { approxVertices := 4, area := 200 }

/- ========================================================================
   Vector store (faiss_vector_store.py)
   ======================================================================== -/

/-- `DocumentChunk` without the embedding payload (embeddings are external
model outputs; only their count matters for the index invariant). -/
structure DocumentChunk where
  text : String
  source : String
  pageNumber : Nat
  chunkType : String
  deriving Repr, DecidableEq

/-- `FAISSVectorStore._generate_chunk_id` hashes the string
`source + "_" + page + "_" + text[:100]` with md5.  The id is modelled by that
content string itself: md5 is a fixed deterministic function, so two chunks
receive the same id exactly when their content strings coincide. -/
def chunkId (c : DocumentChunk) : String :=
  c.source ++ "_" ++ toString c.pageNumber ++ "_" ++ c.text.take 100

/-- The mutable state of a `FAISSVectorStore`: the configured model name, the
number of vectors in the FAISS index (`index.ntotal`), the stored chunk list
and the keys of the `chunk_metadata` dict in insertion order. -/
structure VectorStore where
  modelName : String
  nvecs : Nat
  chunks : List DocumentChunk
  metaKeys : List String
  deriving Repr, DecidableEq

/-- Python dict key insertion: `chunk_metadata[id] = ...` adds the key only if
it is absent (an existing key is overwritten in place). -/
def insertMetaKey (keys : List String) (k : String) : List String :=
  if keys.contains k then keys else keys ++ [k]

/-- `FAISSVectorStore._add_chunks`: on a non-empty batch, append one embedding
per chunk to the index, append the chunks, and assign each chunk's metadata
under its id. -/
def addChunks (s : VectorStore) (batch : List DocumentChunk) : VectorStore :=
  if batch.isEmpty then s
  else
    { s with
        nvecs := s.nvecs + batch.length,
        chunks := s.chunks ++ batch,
        metaKeys := batch.foldl (fun ks c => insertMetaKey ks (chunkId c)) s.metaKeys }

/-- A store is well formed when the index holds one vector per stored chunk
and the metadata keys are exactly the chunk ids inserted in order. -/
def wfStore (s : VectorStore) : Prop :=
  s.nvecs = s.chunks.length
  ∧ s.metaKeys = (s.chunks.map chunkId).foldl insertMetaKey []

/-- The persisted config record (`config.json`). -/
structure VSConfig where
  modelName : String
  indexType : String
  embeddingDim : Nat
  totalChunks : Nat
  deriving Repr, DecidableEq

/-- The on-disk artifacts read by `load_vector_store`: each is `none` when the
file is missing.  The index file carries its vector count, the chunks file its
chunk list, the metadata file its key-value pairs. -/
structure DiskState where
  config : Option VSConfig
  indexFile : Option Nat
  chunksFile : Option (List DocumentChunk)
  metadataFile : Option (List (String × String))
  deriving Repr, DecidableEq

/-- `FAISSVectorStore.load_vector_store`, returning the Bool result together
with the store state after the attempt.  Mirrors the code's sequence: missing
config → false; model mismatch → false; missing index file → false; missing
chunks file → false (after the index was already replaced); the metadata file
is loaded only if present — its absence is silently skipped. -/
def loadVectorStore (disk : DiskState) (s : VectorStore) : Bool × VectorStore :=
  match disk.config with
  | none => (false, s)
  | some cfg =>
    if cfg.modelName ≠ s.modelName then (false, s)
    else
      match disk.indexFile with
      | none => (false, s)
      | some n =>
        let s1 := { s with nvecs := n }
        match disk.chunksFile with
        | none => (false, s1)
        | some cs =>
          let s2 := { s1 with chunks := cs }
          match disk.metadataFile with
          | some md => (true, { s2 with metaKeys := md.map Prod.fst })
          | none => (true, s2)

/-- A retrieval hit: the chunk, its similarity score and the `rank` field set
by the code. -/
structure SearchResult where
  chunk : DocumentChunk
  score : ℚ
  rank : Nat
  deriving Repr, DecidableEq

/-- Python list indexing `chunks[idx]` for a possibly negative index, as it
occurs in the search loop (FAISS pads missing neighbours with index `-1`,
which Python resolves to the LAST chunk).  An index out of range on both ends
would raise in Python; it is modelled as `none` and skipped — FAISS never
produces indices below `-1`. -/
def pyGet (l : List DocumentChunk) (idx : Int) : Option DocumentChunk :=
  if 0 ≤ idx then l.get? idx.toNat
  else if (-idx).toNat ≤ l.length then l.get? (l.length - (-idx).toNat)
  else none

/-- One iteration of the result loop of `FAISSVectorStore.search`: the row is
skipped (`continue`) when its index is at or past the chunk count, when Python
indexing would fail, or when a type filter is set and the chunk type differs;
otherwise it emits a `SearchResult` carrying the enumerate index as `rank`. -/
def searchEmit (chunks : List DocumentChunk) (flt : Option String)
    (rank : Nat) (p : ℚ × Int) : Option SearchResult :=
  if (chunks.length : Int) ≤ p.2 then none
  else
    (pyGet chunks p.2).bind fun c =>
      if flt.all (fun t => c.chunkType == t) then
        some { chunk := c, score := p.1, rank := rank }
      else none

/-- The result loop of `FAISSVectorStore.search`:
`for rank, (score, idx) in enumerate(zip(scores[0], indices[0]))` with the
skip/emit logic of `searchEmit` — `rank` is the enumerate index over the raw
FAISS output, before any skipping or type filtering. -/
def searchLoop (chunks : List DocumentChunk) (flt : Option String)
    (ps : List (ℚ × Int)) (rank : Nat) : List SearchResult :=
  (List.enumFrom rank ps).filterMap fun rp => searchEmit chunks flt rp.1 rp.2

/-- `FAISSVectorStore.search`.  The embedding model and the FAISS engine are
external: the engine is an oracle mapping the query and `k` to the
`(score, index)` rows it returns.  An empty index short-circuits to `[]`
before the engine is consulted. -/
def searchStore (s : VectorStore) (engine : String → Nat → List (ℚ × Int))
    (query : String) (k : Nat) (flt : Option String) : List SearchResult :=
  if s.nvecs = 0 then [] else searchLoop s.chunks flt (engine query k) 0

/- ========================================================================
   Text chunking (faiss_vector_store.py, _chunk_text)
   ======================================================================== -/

/-- Python slice `text[s:e]` for `0 <= s <= e` on a character list. -/
def sliceChars (text : List Char) (s e : Nat) : List Char :=
  (text.take e).drop s

/-- Scan for the largest index `i` with `s ≤ i < s + n` whose character is
`c`; the recursion counts `n` down from the top of the range. -/
def rfindAux (c : Char) (text : List Char) (s : Nat) : Nat → Option Nat
  | 0 => none
  | n + 1 => if text.get? (s + n) = some c then some (s + n) else rfindAux c text s n

/-- Python `text.rfind(c, s, e)`: the largest index of `c` in `[s, e)`, with
`none` standing for the sentinel `-1`. -/
def rfindChar (c : Char) (text : List Char) (s e : Nat) : Option Nat :=
  rfindAux c text s (e - s)

/-- The sentence-terminator search of `_chunk_text`: `.` first, then `!`,
then `?` (the later scans only run when the earlier ones found nothing). -/
def sentenceEnd (text : List Char) (s e : Nat) : Option Nat :=
  match rfindChar '.' text s e, rfindChar '!' text s e, rfindChar '?' text s e with
  | some i, _, _ => some i
  | none, some i, _ => some i
  | none, none, o => o

/-- The `end` computation of one `_chunk_text` loop iteration: the raw end
`start + chunk_size` is moved back to just after the found sentence
terminator when that terminator lies strictly past the half-chunk point, and
the search only runs while the raw end is still inside the text. -/
def chunkEnd (text : List Char) (cs start : Nat) : Nat :=
  if start + cs < text.length then
    match sentenceEnd text start (start + cs) with
    | some i => if start + cs / 2 < i then i + 1 else start + cs
    | none => start + cs
  else start + cs

/-- Python `str.strip()`: remove leading and trailing whitespace. -/
def pyStrip (l : List Char) : List Char :=
  ((l.dropWhile Char.isWhitespace).reverse.dropWhile Char.isWhitespace).reverse

/-- The `(start, end)` windows visited by the `_chunk_text` loop.  The fuel
argument makes the possible non-termination of the Python `while` loop
explicit: `none` means the loop is still running after `fuel` iterations.
The next start `end - overlap` uses truncated subtraction, which agrees with
Python on every run in which `start` never becomes negative. -/
def chunkWindowsAux (text : List Char) (cs overlap : Nat) :
    Nat → Nat → Option (List (Nat × Nat))
  | _, 0 => none
  | start, fuel + 1 =>
    if start < text.length then
      match chunkWindowsAux text cs overlap (chunkEnd text cs start - overlap) fuel with
      | none => none
      | some ws => some ((start, chunkEnd text cs start) :: ws)
    else some []

/-- `FAISSVectorStore._chunk_text`: a text no longer than `chunk_size` is
returned whole (unstripped); otherwise each loop window is sliced, stripped,
and kept only when non-empty.  The result is `none` when the loop has not
terminated within `len(text) + 1` iterations — enough fuel for every
terminating configuration, since a terminating loop advances `start` by at
least one character per iteration. -/
def chunkTextF (text : List Char) (cs overlap : Nat) : Option (List (List Char)) :=
  if text.length ≤ cs then some [text]
  else
    match chunkWindowsAux text cs overlap 0 (text.length + 1) with
    | none => none
    | some ws =>
      some ((ws.map fun w => pyStrip (sliceChars text w.1 w.2)).filter
        fun c => !c.isEmpty)

/-- Drop the leading `overlap` characters of every chunk and concatenate. -/
def dropJoin (overlap : Nat) (chunks : List (List Char)) : List Char :=
  (chunks.map (List.drop overlap)).join

/-- Reassemble chunked text: the first chunk whole, every later chunk with
its `overlap` leading characters removed. -/
def reconstructChunks (overlap : Nat) : List (List Char) → List Char
  | [] => []
  | c :: rest => c ++ dropJoin overlap rest

/-- C5 counterexample text: a leading space, 400 letters, a period and 200
more letters (602 characters, so the loop runs and strips the first chunk). -/
def c5Text : List Char :=
  [' '] ++ List.replicate 400 'a' ++ ['.'] ++ List.replicate 200 'c'

/- ========================================================================
   Concrete inputs used by the theorems
   ======================================================================== -/

/-- C7 counterexample paragraph: satisfies all five conditions listed by the
claim (length 25, uppercase start, no trailing period, no bullet, not
numeric) but contains the keyword `tablo`. -/
def c7Para : String := "Tablo verileri ozet bilgi"

/-- C7 page input for the counterexample. -/
def c7Page : TitlePage := { sayfa := 1, paragraflar := [c7Para] }

/-- Witness page for C7 (amended): the first paragraph is accepted. -/
def c7GoodPage : TitlePage :=
  { sayfa := 1, paragraflar := ["Finansal Gorunum Ozeti", "123"] }

/-- C3 counterexample input: a text chunk. -/
def c3ChunkText : DocumentChunk :=
  { text := "hello", source := "doc.pdf", pageNumber := 1, chunkType := "text" }

/-- C3 counterexample input: a distinct table chunk with the same source, page
and text, hence the same content-derived id. -/
def c3ChunkTable : DocumentChunk :=
  { text := "hello", source := "doc.pdf", pageNumber := 1, chunkType := "table" }

/-- An empty, well-formed store used by the C3 theorems. -/
def c3EmptyStore : VectorStore :=
  { modelName := "m", nvecs := 0, chunks := [], metaKeys := [] }

/-- An empty store used by the C9 witness. -/
def c9EmptyStore : VectorStore :=
  { modelName := "m", nvecs := 0, chunks := [], metaKeys := [] }

/-- C6 counterexample disk state: config, index file and chunks file present
and the model matching, but the metadata map file missing. -/
def c6Disk : DiskState :=
  { config := some { modelName := "m", indexType := "flat",
                     embeddingDim := 768, totalChunks := 0 },
    indexFile := some 0, chunksFile := some [], metadataFile := none }

/-- C6 store whose configured model matches the persisted config. -/
def c6Store : VectorStore :=
  { modelName := "m", nvecs := 0, chunks := [], metaKeys := [] }

/-- C4 counterexample chunk at index 0, of type `table`. -/
def c4ChunkTable : DocumentChunk :=
  { text := "t1", source := "d", pageNumber := 1, chunkType := "table" }

/-- C4 counterexample chunk at index 1, of type `text`. -/
def c4ChunkText : DocumentChunk :=
  { text := "t2", source := "d", pageNumber := 1, chunkType := "text" }

/-- C4 counterexample store holding the two chunks. -/
def c4Store : VectorStore :=
  { modelName := "m", nvecs := 2, chunks := [c4ChunkTable, c4ChunkText],
    metaKeys := [] }

/-- C4 counterexample FAISS response: the table chunk ranks first. -/
def c4Engine : String → Nat → List (ℚ × Int) := fun _ _ => [(9 / 10, 0), (8 / 10, 1)]

/-- Witness text for C5 (amended): 501 periods, whose two loop windows are
strip-invariant. -/
def c5WitnessText : List Char := List.replicate 501 '.'

/- ========================================================================
   Theorems
   ======================================================================== -/

/-- C1: the claim as stated is false: on an exact length tie between two
non-empty texts the consensus record carries the alternative strategy's
string, not the primary (pdfplumber) one. -/
theorem c1_tie_goes_to_alternative :
    ((consensusTextExtraction [c1PlumberPage] [c1AltPage]).map PageText.metin
        = ["cd"])
    ∧ "cd" ≠ "ab" := by
  constructor
  · rfl
  · decide

/-- C1 (amended): for every page where both strategies supply a record, the
consensus record has confidence `high`, validation `both_sources`, and its
text is the primary strategy's string when that one is strictly longer and
the alternative strategy's string otherwise; in particular equal lengths
select the alternative (secondary) strategy's string. -/
theorem c1_consensus_longer_tie_alternative
    (plumber alternative : List PageText) (i : Nat)
    (hp : i < plumber.length) (ha : i < alternative.length) :
    ∃ r, (consensusTextExtraction plumber alternative).get? i = some r
      ∧ r.confidence = "high" ∧ r.validation = "both_sources"
      ∧ r.metin = (if (plumber.get ⟨i, hp⟩).metin.length
                      > (alternative.get ⟨i, ha⟩).metin.length
                   then (plumber.get ⟨i, hp⟩).metin
                   else (alternative.get ⟨i, ha⟩).metin)
      ∧ ((plumber.get ⟨i, hp⟩).metin.length = (alternative.get ⟨i, ha⟩).metin.length
          → r.metin = (alternative.get ⟨i, ha⟩).metin) := by
  have hi : i < max plumber.length alternative.length := lt_max_of_lt_left hp
  have hgp : plumber.get? i = some (plumber.get ⟨i, hp⟩) := List.get?_eq_get hp
  have hga : alternative.get? i = some (alternative.get ⟨i, ha⟩) := List.get?_eq_get ha
  refine ⟨consensusPage (plumber.get? i) (alternative.get? i) (i + 1), ?_, ?_⟩
  · unfold consensusTextExtraction
    rw [List.get?_map, List.get?_range hi]
    rfl
  · rw [hgp, hga]
    unfold consensusPage
    by_cases hlen : (plumber.get ⟨i, hp⟩).metin.length
        > (alternative.get ⟨i, ha⟩).metin.length
    · simp only [if_pos hlen]
      refine ⟨by trivial, by trivial, by trivial, ?_⟩
      intro heq
      omega
    · simp only [if_neg hlen]
      exact ⟨by trivial, by trivial, by trivial, fun _ => by trivial⟩

/-- Witness for C1 (amended) at a concrete tie input. -/
theorem c1_consensus_witness :
    ∃ r, (consensusTextExtraction [c1PlumberPage] [c1AltPage]).get? 0 = some r
      ∧ r.confidence = "high" ∧ r.validation = "both_sources"
      ∧ r.metin = (if ([c1PlumberPage].get ⟨0, by decide⟩).metin.length
                      > ([c1AltPage].get ⟨0, by decide⟩).metin.length
                   then ([c1PlumberPage].get ⟨0, by decide⟩).metin
                   else ([c1AltPage].get ⟨0, by decide⟩).metin)
      ∧ (([c1PlumberPage].get ⟨0, by decide⟩).metin.length
            = ([c1AltPage].get ⟨0, by decide⟩).metin.length
          → r.metin = ([c1AltPage].get ⟨0, by decide⟩).metin) :=
  c1_consensus_longer_tie_alternative [c1PlumberPage] [c1AltPage] 0
    (by decide) (by decide)

/-- C2: the claim as stated is false: with a single result of similarity `-1`
(allowed, since similarities range over `[-1, 1]`) and answer length 0 the
computed confidence is `-32/75`, which is negative — the code clamps only
from above (`min(confidence, 1.0)`), never from below. -/
theorem c2_confidence_can_be_negative :
    calculateConfidence [{ similarity := -1, ctype := "text" }] 0 = -32 / 75
    ∧ (-32 / 75 : ℚ) < 0 := by
  constructor
  · unfold calculateConfidence
    norm_num [List.dedup]
  · norm_num

/-- C2 (amended): for similarities in `[-1, 1]` the confidence score
`min(0.5*avg + 0.2*length_factor + 0.2*source_factor + 0.1*type_factor, 1)`
is clamped only from above: it always lies in `[-1/2, 1]`, and it is negative
for sufficiently negative similarities (it is not clamped into `[0, 1]`). -/
theorem c2_confidence_bounds (results : List RagResult) (responseLength : Nat)
    (hsim : ∀ r ∈ results, -1 ≤ r.similarity ∧ r.similarity ≤ 1) :
    -1 / 2 ≤ calculateConfidence results responseLength
    ∧ calculateConfidence results responseLength ≤ 1 := by
  unfold calculateConfidence
  by_cases hemp : results.isEmpty
  · simp only [hemp, if_pos]
    norm_num
  · simp only [hemp, if_neg, Bool.false_eq_true, not_false_iff]
    have hlenpos : 0 < (results.length : ℚ) := by
      have : results ≠ [] := fun h => hemp (by simp [h])
      have : 0 < results.length := List.length_pos.mpr this
      exact_mod_cast this
    constructor
    · have havg : -1 ≤ (results.map (fun r => r.similarity)).sum / results.length := by
        rw [le_div_iff hlenpos]
        have hbound : ∀ x ∈ results.map (fun r => r.similarity), -1 ≤ x := by
          intro x hx
          obtain ⟨r, hr, hrx⟩ := List.mem_map.mp hx
          exact hrx ▸ (hsim r hr).1
        have hsum : (results.map (fun r => r.similarity)).length • (-1 : ℚ)
            ≤ (results.map (fun r => r.similarity)).sum :=
          List.card_nsmul_le_sum _ _ hbound
        have hlen : (results.map (fun r => r.similarity)).length = results.length :=
          List.length_map _ _
        rw [hlen] at hsum
        calc (-1 : ℚ) * results.length = results.length • (-1 : ℚ) := by
              rw [nsmul_eq_mul]; ring
          _ ≤ _ := hsum
      have hlf : (0 : ℚ) ≤ min ((responseLength : ℚ) / 500) 1 :=
        le_min (by positivity) (by norm_num)
      have hsf : (0 : ℚ) ≤ min ((results.length : ℚ) / 5) 1 :=
        le_min (by positivity) (by norm_num)
      have htf : (0 : ℚ) ≤
          min (((results.map (fun r => r.ctype)).dedup.length : ℚ) / 3) 1 :=
        le_min (by positivity) (by norm_num)
      refine le_min ?_ (by norm_num)
      nlinarith [havg, hlf, hsf, htf]
    · exact min_le_right _ _

/-- Witness for C2 (amended) at a one-result input with similarity 1/2. -/
theorem c2_confidence_bounds_witness :
    -1 / 2 ≤ calculateConfidence [{ similarity := 1 / 2, ctype := "text" }] 100
    ∧ calculateConfidence [{ similarity := 1 / 2, ctype := "text" }] 100 ≤ 1 :=
  c2_confidence_bounds [{ similarity := 1 / 2, ctype := "text" }] 100
    (by intro r hr; simp at hr; rw [hr]; norm_num)

/- Helper lemmas about the titles association list. -/

lemma lookupKey_append_self (t : List (Nat × String)) (s : Nat) (v : String)
    (h : hasKey t s = false) : lookupKey (t ++ [(s, v)]) s = some v := by
  induction t with
  | nil => simp [lookupKey]
  | cons kv t ih =>
    simp only [hasKey, List.any_cons, Bool.or_eq_false_iff] at h
    simp only [List.cons_append, lookupKey, h.1, Bool.false_eq_true, if_false]
    exact ih h.2

lemma lookupKey_append_ne (t : List (Nat × String)) (s k : Nat) (v : String)
    (hne : k ≠ s) : lookupKey (t ++ [(s, v)]) k = lookupKey t k := by
  induction t with
  | nil =>
    have : (s == k) = false := beq_eq_false_iff_ne.mpr (Ne.symm hne)
    simp [lookupKey, this]
  | cons kv t ih =>
    simp only [List.cons_append, lookupKey]
    split
    · rfl
    · exact ih

lemma lookupKey_map_set_ne (t : List (Nat × String)) (s k : Nat) (v : String)
    (hne : k ≠ s) :
    lookupKey (t.map (fun kv => if kv.1 == s then (s, v) else kv)) k
      = lookupKey t k := by
  induction t with
  | nil => rfl
  | cons kv t ih =>
    by_cases h : kv.1 = s
    · have h1 : (kv.1 == s) = true := beq_iff_eq.mpr h
      have h2 : (s == k) = false := beq_eq_false_iff_ne.mpr (Ne.symm hne)
      have h3 : (kv.1 == k) = false := beq_eq_false_iff_ne.mpr (h ▸ Ne.symm hne)
      simp only [List.map_cons, h1, if_true, lookupKey, h2, h3, Bool.false_eq_true,
        if_false]
      exact ih
    · have h1 : (kv.1 == s) = false := beq_eq_false_iff_ne.mpr h
      simp only [List.map_cons, h1, Bool.false_eq_true, if_false, lookupKey]
      split
      · rfl
      · exact ih

lemma hasKey_append_single (t : List (Nat × String)) (s k : Nat) (v : String) :
    hasKey (t ++ [(s, v)]) k = (hasKey t k || s == k) := by
  simp [hasKey]

lemma hasKey_map_set (t : List (Nat × String)) (s k : Nat) (v : String)
    (hne : k ≠ s) :
    hasKey (t.map (fun kv => if kv.1 == s then (s, v) else kv)) k = hasKey t k := by
  induction t with
  | nil => rfl
  | cons kv t ih =>
    by_cases h : kv.1 = s
    · have h1 : (kv.1 == s) = true := beq_iff_eq.mpr h
      have h2 : (s == k) = false := beq_eq_false_iff_ne.mpr (Ne.symm hne)
      have h3 : (kv.1 == k) = false := beq_eq_false_iff_ne.mpr (h ▸ Ne.symm hne)
      simp only [List.map_cons, h1, if_true, hasKey, List.any_cons, h2, h3] at *
      exact ih
    · have h1 : (kv.1 == s) = false := beq_eq_false_iff_ne.mpr h
      simp only [List.map_cons, h1, Bool.false_eq_true, if_false, hasKey,
        List.any_cons] at *
      rw [ih]

lemma hasKey_setKey_ne (t : List (Nat × String)) (s k : Nat) (v : String)
    (hne : k ≠ s) : hasKey (setKey t s v) k = hasKey t k := by
  unfold setKey
  split
  · exact hasKey_map_set t s k v hne
  · rw [hasKey_append_single]
    have : (s == k) = false := beq_eq_false_iff_ne.mpr (Ne.symm hne)
    simp [this]

lemma lookupKey_setKey_ne (t : List (Nat × String)) (s k : Nat) (v : String)
    (hne : k ≠ s) : lookupKey (setKey t s v) k = lookupKey t k := by
  unfold setKey
  split
  · exact lookupKey_map_set_ne t s k v hne
  · exact lookupKey_append_ne t s k v hne

lemma extractTitlesStep_lookup_ne (titles : List (Nat × String)) (page : TitlePage)
    (k : Nat) (hne : k ≠ page.sayfa) :
    lookupKey (extractTitlesStep titles page) k = lookupKey titles k := by
  unfold extractTitlesStep
  cases hft : firstTitle page.paragraflar with
  | some t =>
    simp only
    split
    · exact lookupKey_setKey_ne titles page.sayfa k t hne
    · rw [lookupKey_append_ne _ _ _ _ hne]
      exact lookupKey_setKey_ne titles page.sayfa k t hne
  | none =>
    simp only
    split
    · rfl
    · exact lookupKey_append_ne _ _ _ _ hne

lemma extractTitlesStep_hasKey_ne (titles : List (Nat × String)) (page : TitlePage)
    (k : Nat) (hne : k ≠ page.sayfa) :
    hasKey (extractTitlesStep titles page) k = hasKey titles k := by
  unfold extractTitlesStep
  cases hft : firstTitle page.paragraflar with
  | some t =>
    simp only
    split
    · exact hasKey_setKey_ne titles page.sayfa k t hne
    · rw [hasKey_append_single, hasKey_setKey_ne titles page.sayfa k t hne]
      have : (page.sayfa == k) = false := beq_eq_false_iff_ne.mpr (Ne.symm hne)
      simp [this]
  | none =>
    simp only
    split
    · rfl
    · rw [hasKey_append_single]
      have : (page.sayfa == k) = false := beq_eq_false_iff_ne.mpr (Ne.symm hne)
      simp [this]

lemma extractTitlesStep_lookup_self (titles : List (Nat × String)) (page : TitlePage)
    (h : hasKey titles page.sayfa = false) :
    lookupKey (extractTitlesStep titles page) page.sayfa
      = some ((firstTitle page.paragraflar).getD (defaultTitle page.sayfa)) := by
  unfold extractTitlesStep
  cases hft : firstTitle page.paragraflar with
  | some t =>
    have hset : setKey titles page.sayfa t = titles ++ [(page.sayfa, t)] := by
      unfold setKey
      rw [h]
      simp
    have hmem : hasKey (setKey titles page.sayfa t) page.sayfa = true := by
      rw [hset, hasKey_append_single]
      simp
    simp only [hmem, if_true, Option.getD_some]
    rw [hset]
    exact lookupKey_append_self titles page.sayfa t h
  | none =>
    simp only [h, Bool.false_eq_true, if_false, Option.getD_none]
    exact lookupKey_append_self titles page.sayfa _ h

lemma foldl_titles_lookup_frozen (rest : List TitlePage) :
    ∀ (acc : List (Nat × String)) (k : Nat), (∀ r ∈ rest, k ≠ r.sayfa) →
      lookupKey (rest.foldl extractTitlesStep acc) k = lookupKey acc k := by
  induction rest with
  | nil => intro acc k _; rfl
  | cons q rest ih =>
    intro acc k h
    rw [List.foldl_cons, ih _ _ (fun r hr => h r (List.mem_cons_of_mem _ hr)),
      extractTitlesStep_lookup_ne _ _ _ (h q (List.mem_cons_self _ _))]

lemma extractTitles_foldl_lookup (pages : List TitlePage) :
    ∀ acc, List.Pairwise (fun p q => p.sayfa ≠ q.sayfa) pages →
      (∀ p ∈ pages, hasKey acc p.sayfa = false) →
      ∀ p ∈ pages, lookupKey (pages.foldl extractTitlesStep acc) p.sayfa
        = some ((firstTitle p.paragraflar).getD (defaultTitle p.sayfa)) := by
  induction pages with
  | nil => intro acc _ _ p hp; cases hp
  | cons q rest ih =>
    intro acc hpw hkeys p hp
    rw [List.foldl_cons]
    rcases List.mem_cons.mp hp with rfl | hp'
    · rw [foldl_titles_lookup_frozen rest _ _
        (fun r hr => (List.pairwise_cons.mp hpw).1 r hr)]
      exact extractTitlesStep_lookup_self _ _ (hkeys p (List.mem_cons_self _ _))
    · refine ih (extractTitlesStep acc q) (List.pairwise_cons.mp hpw).2 ?_ p hp'
      intro r hr
      rw [extractTitlesStep_hasKey_ne _ _ _
        (Ne.symm ((List.pairwise_cons.mp hpw).1 r hr))]
      exact hkeys r (List.mem_cons_of_mem _ hr)

/-- C7: the claim as stated is false: a paragraph passing the five listed
conditions (checked here by the spec-derived `specTitleCandidate`) is still
rejected by the code because it contains the substring `tablo`, so the page
falls back to the synthesized default title. -/
theorem c7_keyword_exclusion_counterexample :
    extractTitlesFromText [c7Page] = [(1, "Sayfa 1")]
    ∧ [c7Para].find? specTitleCandidate = some c7Para
    ∧ c7Para ≠ "Sayfa 1" := by
  refine ⟨by decide, by decide, by decide⟩

/-- C7 (amended): for pages with pairwise-distinct page numbers, each page's
derived title is the first paragraph satisfying the code's seven conditions —
the five listed by the claim plus the two keyword exclusions (`tablo`,
`grafik` in the lowercased text) — and the synthesized default
`"Sayfa {n}"` otherwise. -/
theorem c7_title_heuristic (pages : List TitlePage)
    (hdist : List.Pairwise (fun p q => p.sayfa ≠ q.sayfa) pages)
    (p : TitlePage) (hp : p ∈ pages) :
    lookupKey (extractTitlesFromText pages) p.sayfa
      = some ((firstTitle p.paragraflar).getD (defaultTitle p.sayfa)) := by
  unfold extractTitlesFromText
  exact extractTitles_foldl_lookup pages [] hdist (fun _ _ => rfl) p hp

/-- Witness for C7 (amended) at a concrete one-page input. -/
theorem c7_title_heuristic_witness :
    lookupKey (extractTitlesFromText [c7GoodPage]) c7GoodPage.sayfa
      = some ((firstTitle c7GoodPage.paragraflar).getD (defaultTitle c7GoodPage.sayfa)) :=
  c7_title_heuristic [c7GoodPage] (by simp) c7GoodPage (by simp)

/-- C8: the claim as stated is false: with exactly 2 qualifying rectangular
contours the bar score is `0.0`, not `min(0.8, 2/10) = 0.2` — the formula
only applies from 3 rectangles up. -/
theorem c8_two_rects_score_zero :
    qualifyingRects [c8Rect, c8Rect] = 2
    ∧ detectBarChart [c8Rect, c8Rect] = 0
    ∧ (0 : ℚ) ≠ 2 / 10 := by
  refine ⟨by decide, ?_, by norm_num⟩
  unfold detectBarChart
  norm_num [qualifyingRects, c8Rect]

/-- C8 (amended): with exactly N qualifying rectangular contours the bar score
is `min(0.8, N/10)` when `N ≥ 3` and `0.0` when `N < 3`; in particular, when
the other three detectors score 0, N = 3 yields score `0.3` and an accepted
`bar_chart` classification (threshold is `≥ 0.30`), while N = 2 yields score
`0.0` and rejection `(None, 0.0)`. -/
theorem c8_bar_chart_scoring (contours : List Contour) :
    (3 ≤ qualifyingRects contours →
      detectBarChart contours = min (4 / 5 : ℚ) ((qualifyingRects contours : ℚ) / 10))
    ∧ (qualifyingRects contours < 3 → detectBarChart contours = 0)
    ∧ (qualifyingRects contours = 3 →
        detectChartType (chartScores contours 0 0 0) = (some "bar_chart", 3 / 10))
    ∧ (qualifyingRects contours = 2 →
        detectChartType (chartScores contours 0 0 0) = (none, 0)) := by
  refine ⟨?_, ?_, ?_, ?_⟩
  · intro h
    unfold detectBarChart
    rw [if_pos h]
  · intro h
    unfold detectBarChart
    rw [if_neg (by omega)]
  · intro h3
    have hb : detectBarChart contours = 3 / 10 := by
      unfold detectBarChart
      rw [h3, if_pos (by omega)]
      norm_num
    unfold detectChartType bestChart chartScores
    rw [hb]
    norm_num
  · intro h2
    have hb : detectBarChart contours = 0 := by
      unfold detectBarChart
      rw [if_neg (by omega)]
    unfold detectChartType bestChart chartScores
    rw [hb]
    norm_num

/-- Witness for C8 (amended): three concrete qualifying rectangles are
classified as an accepted bar chart with score 3/10. -/
theorem c8_bar_chart_scoring_witness :
    detectChartType (chartScores [c8Rect, c8Rect, c8Rect] 0 0 0)
      = (some "bar_chart", 3 / 10) :=
  (c8_bar_chart_scoring [c8Rect, c8Rect, c8Rect]).2.2.1 (by decide)

/- Helper lemma for the metadata-key fold. -/

lemma insertAll_eq_append (l : List String) :
    ∀ keys : List String, (keys ++ l).Nodup → l.foldl insertMetaKey keys = keys ++ l := by
  induction l with
  | nil => intro keys _; simp
  | cons k l ih =>
    intro keys h
    have hk : k ∉ keys := by
      intro hmem
      exact List.disjoint_of_nodup_append h hmem (List.mem_cons_self k l)
    have hins : insertMetaKey keys k = keys ++ [k] := by
      simp [insertMetaKey, hk]
    have h2 : (keys ++ [k] ++ l).Nodup := by
      rw [List.append_assoc, List.singleton_append]
      exact h
    rw [List.foldl_cons, hins, ih (keys ++ [k]) h2, List.append_assoc,
      List.singleton_append]

/-- C3: the claim as stated is false for batches with colliding chunk ids:
two distinct chunks whose (source, page, first-100-chars) content coincides
share one id, so after the bulk insert the index holds 2 vectors and 2 chunks
but the metadata map has only 1 entry. -/
theorem c3_collision_breaks_invariant :
    chunkId c3ChunkText = chunkId c3ChunkTable
    ∧ c3ChunkText ≠ c3ChunkTable
    ∧ (addChunks c3EmptyStore [c3ChunkText, c3ChunkTable]).nvecs = 2
    ∧ (addChunks c3EmptyStore [c3ChunkText, c3ChunkTable]).chunks.length = 2
    ∧ (addChunks c3EmptyStore [c3ChunkText, c3ChunkTable]).metaKeys.length = 1 := by
  refine ⟨rfl, by simp [c3ChunkText, c3ChunkTable], rfl, rfl, ?_⟩
  have h1 : chunkId c3ChunkTable = chunkId c3ChunkText := rfl
  simp [addChunks, insertMetaKey, h1, c3EmptyStore]

/-- C3 (amended): after a completed bulk insert the invariant
`len(vectors) = len(chunks) = len(metadata)` holds provided the chunk ids of
the stored chunks and the batch are pairwise distinct; a batch with an id
collision instead shrinks the metadata map below the other two counts. -/
theorem c3_bulk_insert_invariant (s : VectorStore) (batch : List DocumentChunk)
    (hwf : wfStore s) (hnodup : ((s.chunks ++ batch).map chunkId).Nodup) :
    (addChunks s batch).nvecs = (addChunks s batch).chunks.length
    ∧ (addChunks s batch).chunks.length = (addChunks s batch).metaKeys.length := by
  obtain ⟨hn, hm⟩ := hwf
  have hnd : (s.chunks.map chunkId).Nodup := by
    rw [List.map_append] at hnodup
    exact List.Nodup.of_append_left hnodup
  unfold addChunks
  by_cases hb : batch.isEmpty
  · simp only [hb, if_pos]
    refine ⟨hn, ?_⟩
    rw [hm, insertAll_eq_append _ [] (by simpa using hnd)]
    simp
  · simp only [hb, Bool.false_eq_true, if_false]
    refine ⟨by simp [hn], ?_⟩
    have key : batch.foldl (fun ks c => insertMetaKey ks (chunkId c)) s.metaKeys
        = (s.chunks ++ batch).map chunkId := by
      have hfold : batch.foldl (fun ks c => insertMetaKey ks (chunkId c)) s.metaKeys
          = (batch.map chunkId).foldl insertMetaKey s.metaKeys := by
        rw [List.foldl_map]
      rw [hfold, hm, ← List.foldl_append, ← List.map_append,
        insertAll_eq_append _ [] (by simpa using hnodup)]
      simp
    simp only [key, List.length_map, List.length_append]

/-- Witness for C3 (amended): inserting one chunk into the empty store. -/
theorem c3_bulk_insert_invariant_witness :
    (addChunks c3EmptyStore [c3ChunkText]).nvecs
      = (addChunks c3EmptyStore [c3ChunkText]).chunks.length
    ∧ (addChunks c3EmptyStore [c3ChunkText]).chunks.length
      = (addChunks c3EmptyStore [c3ChunkText]).metaKeys.length :=
  c3_bulk_insert_invariant c3EmptyStore [c3ChunkText] ⟨rfl, rfl⟩ (by simp [c3EmptyStore])

/-- C6: the claim as stated is false: with the metadata map file missing (a
coordinated persisted artifact) `load()` still returns true — the code only
loads `metadata.json` when present and never fails on its absence. -/
theorem c6_missing_metadata_still_loads :
    (loadVectorStore c6Disk c6Store).1 = true ∧ c6Disk.metadataFile = none := by
  exact ⟨by decide, rfl⟩

/-- C6 (amended): `load()` returns true exactly when the config record is
present with a matching model identifier and the similarity-index file and
chunk-list file exist; a missing metadata map file is tolerated silently and
does not cause `load()` to return false. -/
theorem c6_load_success_condition (disk : DiskState) (s : VectorStore) :
    (loadVectorStore disk s).1 = true
    ↔ (∃ cfg, disk.config = some cfg ∧ cfg.modelName = s.modelName)
      ∧ disk.indexFile.isSome ∧ disk.chunksFile.isSome := by
  unfold loadVectorStore
  cases hc : disk.config with
  | none => simp
  | some cfg =>
    by_cases hm : cfg.modelName = s.modelName
    · cases hi : disk.indexFile with
      | none => simp [hm]
      | some n =>
        cases hch : disk.chunksFile with
        | none => simp [hm]
        | some cs =>
          cases hmd : disk.metadataFile with
          | none => simp [hm]
          | some md => simp [hm]
    · simp [hm]

/-- C9: searching an empty index (zero indexed vectors) returns the empty
list for every engine response, query, k and type filter, before the engine
is even consulted. -/
theorem c9_empty_index_search (s : VectorStore)
    (engine : String → Nat → List (ℚ × Int)) (query : String) (k : Nat)
    (flt : Option String) (h : s.nvecs = 0) :
    searchStore s engine query k flt = [] := by
  unfold searchStore
  rw [if_pos h]

/-- Witness for C9 at a concrete empty store and non-trivial engine. -/
theorem c9_empty_index_search_witness :
    searchStore c9EmptyStore (fun _ _ => [(1, 0), (1 / 2, -1)]) "inflation" 5 none = [] :=
  c9_empty_index_search c9EmptyStore (fun _ _ => [(1, 0), (1 / 2, -1)]) "inflation" 5
    none rfl

/- Helper lemmas about the search result loop. -/

lemma searchEmit_some (chunks : List DocumentChunk) (flt : Option String)
    (rank : Nat) (p : ℚ × Int) (r : SearchResult)
    (h : searchEmit chunks flt rank p = some r) :
    r.score = p.1 ∧ r.rank = rank := by
  unfold searchEmit at h
  by_cases h1 : (chunks.length : Int) ≤ p.2
  · rw [if_pos h1] at h
    cases h
  · rw [if_neg h1] at h
    cases hg : pyGet chunks p.2 with
    | none => rw [hg] at h; cases h
    | some c =>
      rw [hg, Option.some_bind] at h
      by_cases hf : Option.all (fun t => c.chunkType == t) flt
      · rw [if_pos hf] at h
        obtain rfl := Option.some_inj.mp h
        exact ⟨rfl, rfl⟩
      · rw [if_neg hf] at h
        cases h

lemma searchLoop_scores_sublist (chunks : List DocumentChunk) (flt : Option String) :
    ∀ (ps : List (ℚ × Int)) (rank : Nat),
      ((searchLoop chunks flt ps rank).map (fun r => r.score)).Sublist
        (ps.map Prod.fst) := by
  intro ps
  induction ps with
  | nil => intro rank; simp [searchLoop]
  | cons p rest ih =>
    intro rank
    unfold searchLoop
    rw [List.enumFrom_cons]
    cases hemit : searchEmit chunks flt rank p with
    | none =>
      rw [@List.filterMap_cons_none _ _ (fun rp => searchEmit chunks flt rp.1 rp.2)
        (rank, p) (List.enumFrom (rank + 1) rest) hemit, List.map_cons]
      exact (ih (rank + 1)).cons _
    | some r =>
      rw [@List.filterMap_cons_some _ _ (fun rp => searchEmit chunks flt rp.1 rp.2)
        (rank, p) (List.enumFrom (rank + 1) rest) r hemit, List.map_cons, List.map_cons,
        (searchEmit_some chunks flt rank p r hemit).1]
      exact (ih (rank + 1)).cons₂ _

lemma searchLoop_rank_points_back (chunks : List DocumentChunk) (flt : Option String)
    (ps : List (ℚ × Int)) (rank : Nat) (r : SearchResult)
    (h : r ∈ searchLoop chunks flt ps rank) :
    rank ≤ r.rank ∧ (ps.get? (r.rank - rank)).map Prod.fst = some r.score := by
  unfold searchLoop at h
  obtain ⟨rp, hrp, hemit⟩ := List.mem_filterMap.mp h
  obtain ⟨m, hm⟩ := List.get?_of_mem hrp
  rw [List.enumFrom_get?] at hm
  cases hq : ps.get? m with
  | none => rw [hq] at hm; cases hm
  | some q =>
    rw [hq, Option.map_some'] at hm
    obtain rfl := Option.some_inj.mp hm
    obtain ⟨hs, hr⟩ := searchEmit_some chunks flt (rank + m) q r hemit
    have hd : r.rank - rank = m := by omega
    refine ⟨by omega, ?_⟩
    rw [hd, hq, Option.map_some', hs]

lemma searchLoop_nofilter_ranks (chunks : List DocumentChunk) :
    ∀ (ps : List (ℚ × Int)) (rank : Nat),
      (∀ p ∈ ps, 0 ≤ p.2 ∧ p.2 < (chunks.length : Int)) →
      (searchLoop chunks none ps rank).map (fun r => r.rank)
        = List.range' rank ps.length := by
  intro ps
  induction ps with
  | nil => intro rank _; simp [searchLoop]
  | cons p rest ih =>
    intro rank h
    have hp := h p (List.mem_cons_self _ _)
    have hlt : ¬ ((chunks.length : Int) ≤ p.2) := not_le.mpr hp.2
    have htn : p.2.toNat < chunks.length := by omega
    obtain ⟨c, hc⟩ : ∃ c, chunks.get? p.2.toNat = some c :=
      ⟨chunks.get ⟨p.2.toNat, htn⟩, List.get?_eq_get htn⟩
    have hemit : searchEmit chunks none rank p
        = some { chunk := c, score := p.1, rank := rank } := by
      unfold searchEmit pyGet
      rw [if_neg hlt, if_pos hp.1, hc]
      rfl
    unfold searchLoop
    rw [List.enumFrom_cons,
      @List.filterMap_cons_some _ _ (fun rp => searchEmit chunks none rp.1 rp.2)
        (rank, p) (List.enumFrom (rank + 1) rest) _ hemit,
      List.map_cons, List.length_cons, List.range'_succ]
    congr 1
    exact ih (rank + 1) (fun q hq => h q (List.mem_cons_of_mem _ hq))

/-- C4: the claim as stated is false: with a type filter that drops the
top-ranked hit, the single returned result carries `rank = 1` — the enumerate
index over the raw FAISS output — although its position in the returned
ordering is 0. -/
theorem c4_filtered_rank_counterexample :
    (searchStore c4Store c4Engine "q" 2 (some "text")).map (fun r => r.rank) = [1]
    ∧ [1] ≠ List.range (searchStore c4Store c4Engine "q" 2 (some "text")).length := by
  constructor
  · rfl
  · intro h
    have : List.range (searchStore c4Store c4Engine "q" 2 (some "text")).length = [0] := rfl
    rw [this] at h
    cases h

/-- C4 (amended): for a non-empty index and a FAISS response sorted by
descending similarity, the returned results are ordered by descending
similarity and may number fewer than the response rows; each result's `rank`
is its 0-based position in the raw pre-filter retrieval order (its score sits
at index `rank` of the response), and only without a type filter (and with
in-range indices) does `rank` coincide with the position in the returned
ordering. -/
theorem c4_search_order_and_rank (s : VectorStore)
    (engine : String → Nat → List (ℚ × Int)) (query : String) (k : Nat)
    (flt : Option String)
    (hdesc : List.Pairwise (fun a b => b.1 ≤ a.1) (engine query k)) :
    List.Pairwise (fun r r2 => r2.score ≤ r.score) (searchStore s engine query k flt)
    ∧ (∀ r ∈ searchStore s engine query k flt,
        ((engine query k).get? r.rank).map Prod.fst = some r.score)
    ∧ (searchStore s engine query k flt).length ≤ (engine query k).length
    ∧ (flt = none →
        (∀ p ∈ engine query k, 0 ≤ p.2 ∧ p.2 < (s.chunks.length : Int)) →
        ∀ i (hi : i < (searchStore s engine query k flt).length),
          ((searchStore s engine query k flt).get ⟨i, hi⟩).rank = i) := by
  unfold searchStore
  by_cases hz : s.nvecs = 0
  · rw [if_pos hz]
    refine ⟨List.Pairwise.nil, by simp, by simp, ?_⟩
    intro _ _ i hi
    simp at hi
  · rw [if_neg hz]
    refine ⟨?_, ?_, ?_, ?_⟩
    · have hsub := searchLoop_scores_sublist s.chunks flt (engine query k) 0
      have hpw : ((engine query k).map Prod.fst).Pairwise (fun x y => y ≤ x) :=
        (List.pairwise_map).mpr hdesc
      exact (List.pairwise_map).mp (hpw.sublist hsub)
    · intro r hr
      have := searchLoop_rank_points_back s.chunks flt (engine query k) 0 r hr
      simpa using this.2
    · have hsub := searchLoop_scores_sublist s.chunks flt (engine query k) 0
      simpa using hsub.length_le
    · rintro rfl hvalid i hi
      have hmap := searchLoop_nofilter_ranks s.chunks (engine query k) 0 hvalid
      have h2 : (searchLoop s.chunks none (engine query k) 0).get? i
          = some ((searchLoop s.chunks none (engine query k) 0).get ⟨i, hi⟩) :=
        List.get?_eq_get hi
      have h3 := congrArg (Option.map (fun r => r.rank)) h2
      rw [← List.get?_map, hmap, Option.map_some'] at h3
      have hlen : i < (engine query k).length := by
        have hlenmap := congrArg List.length hmap
        simp only [List.length_map, List.length_range'] at hlenmap
        omega
      rw [List.get?_range' 0 1 hlen] at h3
      have := Option.some_inj.mp h3
      omega

/-- Witness for C4 (amended) at a concrete two-chunk store with no filter. -/
theorem c4_search_order_and_rank_witness :
    List.Pairwise (fun r r2 => r2.score ≤ r.score)
      (searchStore c4Store c4Engine "q" 2 none)
    ∧ (∀ r ∈ searchStore c4Store c4Engine "q" 2 none,
        ((c4Engine "q" 2).get? r.rank).map Prod.fst = some r.score)
    ∧ (searchStore c4Store c4Engine "q" 2 none).length ≤ (c4Engine "q" 2).length
    ∧ (none = (none : Option String) →
        (∀ p ∈ c4Engine "q" 2, 0 ≤ p.2 ∧ p.2 < (c4Store.chunks.length : Int)) →
        ∀ i (hi : i < (searchStore c4Store c4Engine "q" 2 none).length),
          ((searchStore c4Store c4Engine "q" 2 none).get ⟨i, hi⟩).rank = i) :=
  c4_search_order_and_rank c4Store c4Engine "q" 2 none
    (by norm_num [c4Engine])

/- Helper lemmas about the chunking loop. -/

lemma rfindAux_lt (c : Char) (text : List Char) (s : Nat) :
    ∀ n i, rfindAux c text s n = some i → i < s + n := by
  intro n
  induction n with
  | zero => intro i h; cases h
  | succ n ih =>
    intro i h
    unfold rfindAux at h
    split at h
    · obtain rfl := Option.some_inj.mp h
      omega
    · have := ih i h
      omega

lemma rfindChar_lt (c : Char) (text : List Char) (s e i : Nat)
    (h : rfindChar c text s e = some i) (hs : s ≤ e) : i < e := by
  have := rfindAux_lt c text s (e - s) i h
  omega

lemma sentenceEnd_lt (text : List Char) (s e i : Nat)
    (hse : sentenceEnd text s e = some i) (hs : s ≤ e) : i < e := by
  unfold sentenceEnd at hse
  cases h1 : rfindChar '.' text s e with
  | some j =>
    simp only [h1] at hse
    obtain rfl := Option.some_inj.mp hse
    exact rfindChar_lt '.' text s e j h1 hs
  | none =>
    simp only [h1] at hse
    cases h2 : rfindChar '!' text s e with
    | some j =>
      simp only [h2] at hse
      obtain rfl := Option.some_inj.mp hse
      exact rfindChar_lt '!' text s e j h2 hs
    | none =>
      simp only [h2] at hse
      exact rfindChar_lt '?' text s e i hse hs

lemma chunkEnd_le (text : List Char) (cs start : Nat) :
    chunkEnd text cs start ≤ start + cs := by
  unfold chunkEnd
  by_cases h : start + cs < text.length
  · rw [if_pos h]
    cases hse : sentenceEnd text start (start + cs) with
    | none => exact le_refl _
    | some i =>
      show (if start + cs / 2 < i then i + 1 else start + cs) ≤ start + cs
      have hi : i < start + cs :=
        sentenceEnd_lt text start (start + cs) i hse (by omega)
      split <;> omega
  · rw [if_neg h]

lemma chunkEnd_lower (text : List Char) (cs start : Nat) (hcs : 1 ≤ cs) :
    start + cs / 2 + 1 ≤ chunkEnd text cs start := by
  unfold chunkEnd
  by_cases h : start + cs < text.length
  · rw [if_pos h]
    cases hse : sentenceEnd text start (start + cs) with
    | none =>
      show start + cs / 2 + 1 ≤ start + cs
      omega
    | some i =>
      show start + cs / 2 + 1 ≤ if start + cs / 2 < i then i + 1 else start + cs
      split <;> omega
  · rw [if_neg h]
    omega

lemma chunkWindowsAux_isSome (text : List Char) (cs overlap : Nat)
    (hcs : 1 ≤ cs) (hov : overlap ≤ cs / 2) :
    ∀ fuel start, text.length ≤ start + fuel →
      (chunkWindowsAux text cs overlap start (fuel + 1)).isSome := by
  intro fuel
  induction fuel with
  | zero =>
    intro start h
    unfold chunkWindowsAux
    rw [if_neg (by omega)]
    rfl
  | succ n ih =>
    intro start h
    unfold chunkWindowsAux
    by_cases hs : start < text.length
    · rw [if_pos hs]
      have hlow := chunkEnd_lower text cs start hcs
      have := ih (chunkEnd text cs start - overlap) (by omega)
      cases haux : chunkWindowsAux text cs overlap
          (chunkEnd text cs start - overlap) (n + 1) with
      | none => rw [haux] at this; simp at this
      | some ws => rfl
    · rw [if_neg hs]
      rfl

/-- C10: the claim as stated is false at `chunk_size = 0, overlap = 0` (which
satisfies `overlap < chunk_size/2 + 1`): on the one-character text the loop
end stays at the start, so the next start `end - overlap` equals the previous
start instead of strictly exceeding it, and the loop never terminates (the
fueled embedding returns `none`). -/
theorem c10_zero_chunk_size_diverges :
    (0 : Nat) < 0 / 2 + 1
    ∧ chunkEnd ['a'] 0 0 = 0
    ∧ chunkTextF ['a'] 0 0 = none := by
  refine ⟨by norm_num, by decide, by decide⟩

/-- C10 (amended): the chunking loop terminates for every text whenever
`chunk_size ≥ 1` and `overlap < chunk_size/2 + 1` (so for the defaults
500/50): each iteration the chunk end stays strictly past
`start + chunk_size/2`, hence the next start `end - overlap` strictly
exceeds the previous start and fuel `len(text) + 1` suffices. -/
theorem c10_chunking_terminates (text : List Char) (cs overlap : Nat)
    (hcs : 1 ≤ cs) (hov : overlap < cs / 2 + 1) :
    (chunkTextF text cs overlap).isSome := by
  unfold chunkTextF
  by_cases h : text.length ≤ cs
  · rw [if_pos h]
    rfl
  · rw [if_neg h]
    have hov' : overlap ≤ cs / 2 := by omega
    have hsome := chunkWindowsAux_isSome text cs overlap hcs hov' text.length 0
      (by omega)
    cases haux : chunkWindowsAux text cs overlap 0 (text.length + 1) with
    | none => rw [haux] at hsome; simp at hsome
    | some ws => rfl

/-- Witness for C10 (amended) at a 5-character text with chunk size 2 and
overlap 1, which runs the loop proper. -/
theorem c10_chunking_terminates_witness :
    (chunkTextF "ab.de".data 2 1).isSome :=
  c10_chunking_terminates "ab.de".data 2 1 (by norm_num) (by norm_num)

lemma slice_append_drop (text : List Char) (s e : Nat) (hse : s ≤ e) :
    (text.take e).drop s ++ text.drop e = text.drop s := by
  by_cases hs : s ≤ text.length
  · conv_rhs => rw [← List.take_append_drop e text]
    rw [List.drop_append_of_le_length]
    rw [List.length_take]
    omega
  · have h1 : (text.take e).drop s = [] := by
      apply List.drop_eq_nil_of_le
      rw [List.length_take]
      omega
    have h2 : text.drop e = [] := List.drop_eq_nil_of_le (by omega)
    have h3 : text.drop s = [] := List.drop_eq_nil_of_le (by omega)
    rw [h1, h2, h3]
    rfl

lemma chunkWindowsAux_bounds (text : List Char) (cs overlap : Nat) (hcs : 1 ≤ cs) :
    ∀ fuel start ws, chunkWindowsAux text cs overlap start fuel = some ws →
      ∀ w ∈ ws, w.1 < text.length ∧ w.1 < w.2 := by
  intro fuel
  induction fuel with
  | zero => intro start ws h; cases h
  | succ n ih =>
    intro start ws h
    unfold chunkWindowsAux at h
    by_cases hs : start < text.length
    · rw [if_pos hs] at h
      cases haux : chunkWindowsAux text cs overlap
          (chunkEnd text cs start - overlap) n with
      | none => rw [haux] at h; cases h
      | some ws' =>
        rw [haux] at h
        obtain rfl := Option.some_inj.mp h
        intro w hw
        rcases List.mem_cons.mp hw with rfl | hw'
        · refine ⟨hs, ?_⟩
          have := chunkEnd_lower text cs start hcs
          omega
        · exact ih _ _ haux w hw'
    · rw [if_neg hs] at h
      obtain rfl := Option.some_inj.mp h
      intro w hw
      cases hw

lemma chunkWindowsAux_reconstruct (text : List Char) (cs overlap : Nat)
    (hcs : 1 ≤ cs) (hov : overlap ≤ cs / 2) :
    ∀ fuel start ws, start < text.length →
      chunkWindowsAux text cs overlap start (fuel + 1) = some ws →
      reconstructChunks overlap (ws.map fun w => sliceChars text w.1 w.2)
          = text.drop start
      ∧ dropJoin overlap (ws.map fun w => sliceChars text w.1 w.2)
          = text.drop (start + overlap) := by
  intro fuel
  induction fuel with
  | zero =>
    intro start ws hs h
    unfold chunkWindowsAux at h
    rw [if_pos hs] at h
    cases h
  | succ n ih =>
    intro start ws hs h
    unfold chunkWindowsAux at h
    rw [if_pos hs] at h
    cases haux : chunkWindowsAux text cs overlap
        (chunkEnd text cs start - overlap) (n + 1) with
    | none => rw [haux] at h; cases h
    | some ws' =>
      rw [haux] at h
      obtain rfl := Option.some_inj.mp h
      have hlow := chunkEnd_lower text cs start hcs
      have hup := chunkEnd_le text cs start
      by_cases hnext : chunkEnd text cs start - overlap < text.length
      · obtain ⟨hR, hD⟩ := ih (chunkEnd text cs start - overlap) ws' hnext haux
        have hstart' : chunkEnd text cs start - overlap + overlap
            = chunkEnd text cs start := by omega
        rw [hstart'] at hD
        constructor
        · show sliceChars text start (chunkEnd text cs start)
            ++ dropJoin overlap (ws'.map fun w => sliceChars text w.1 w.2)
            = text.drop start
          rw [hD]
          exact slice_append_drop text start (chunkEnd text cs start) (by omega)
        · show (sliceChars text start (chunkEnd text cs start)).drop overlap
            ++ dropJoin overlap (ws'.map fun w => sliceChars text w.1 w.2)
            = text.drop (start + overlap)
          rw [hD]
          unfold sliceChars
          rw [List.drop_drop]
          exact slice_append_drop text (start + overlap) (chunkEnd text cs start)
            (by omega)
      · have hws' : ws' = [] := by
          unfold chunkWindowsAux at haux
          rw [if_neg hnext] at haux
          exact (Option.some_inj.mp haux).symm
        subst hws'
        have hlen : text.length ≤ chunkEnd text cs start := by omega
        have htake : text.take (chunkEnd text cs start) = text :=
          List.take_all_of_le hlen
        constructor
        · show sliceChars text start (chunkEnd text cs start) ++ dropJoin overlap []
            = text.drop start
          unfold sliceChars dropJoin
          rw [htake]
          simp
        · show (sliceChars text start (chunkEnd text cs start)).drop overlap
            ++ dropJoin overlap [] = text.drop (start + overlap)
          unfold sliceChars dropJoin
          rw [htake, List.drop_drop]
          simp

set_option maxRecDepth 100000 in
/-- C5: the claim as stated is false: on a 602-character text starting with a
space, `strip()` removes the leading space of the first chunk, so
concatenating the chunks with the 50-character overlap removed between each
consecutive pair yields the text without its first character. -/
theorem c5_strip_breaks_roundtrip :
    (chunkTextF c5Text 500 50).map (reconstructChunks 50) = some (c5Text.drop 1)
    ∧ c5Text.drop 1 ≠ c5Text := by
  constructor
  · rfl
  · intro h
    have hlen : c5Text.length = 602 := by
      simp [c5Text]
    have hcontra := congrArg List.length h
    rw [List.length_drop, hlen] at hcontra
    omega

/-- C5 (amended): the round trip holds exactly on the runs where stripping is
the identity: for every text each of whose loop windows carries no leading or
trailing whitespace, the chunking at the defaults (500, 50) succeeds and
concatenating the chunks, removing the 50-character overlap between each
consecutive pair, reconstructs the text; `strip()` (and the dropping of
empty stripped chunks) breaks exact reconstruction otherwise. -/
theorem c5_chunk_roundtrip (text : List Char)
    (hstrip : ∀ w ∈ (chunkWindowsAux text 500 50 0 (text.length + 1)).getD [],
        pyStrip (sliceChars text w.1 w.2) = sliceChars text w.1 w.2) :
    ∃ l, chunkTextF text 500 50 = some l ∧ reconstructChunks 50 l = text := by
  unfold chunkTextF
  by_cases h : text.length ≤ 500
  · rw [if_pos h]
    refine ⟨[text], rfl, ?_⟩
    show text ++ dropJoin 50 [] = text
    simp [dropJoin]
  · rw [if_neg h]
    have hsome := chunkWindowsAux_isSome text 500 50 (by norm_num) (by norm_num)
      text.length 0 (by omega)
    cases haux : chunkWindowsAux text 500 50 0 (text.length + 1) with
    | none => rw [haux] at hsome; simp at hsome
    | some ws =>
      refine ⟨_, rfl, ?_⟩
      have hb := chunkWindowsAux_bounds text 500 50 (by norm_num)
        (text.length + 1) 0 ws haux
      have hmapeq : (ws.map fun w => pyStrip (sliceChars text w.1 w.2))
          = ws.map fun w => sliceChars text w.1 w.2 :=
        List.map_congr_left (fun w hw => hstrip w (by rw [haux]; exact hw))
      have hne : ∀ c ∈ ws.map (fun w => sliceChars text w.1 w.2),
          (!c.isEmpty) = true := by
        intro c hc
        obtain ⟨w, hw, rfl⟩ := List.mem_map.mp hc
        obtain ⟨h1, h2⟩ := hb w hw
        have hlen : 0 < (sliceChars text w.1 w.2).length := by
          unfold sliceChars
          rw [List.length_drop, List.length_take]
          omega
        simp only [Bool.not_eq_true']
        rw [List.isEmpty_eq_false]
        intro hnil
        rw [hnil] at hlen
        simp at hlen
      have hfilter : ((ws.map fun w => sliceChars text w.1 w.2).filter
          fun c => !c.isEmpty) = ws.map fun w => sliceChars text w.1 w.2 :=
        List.filter_eq_self.mpr hne
      rw [hmapeq, hfilter]
      have hrec := (chunkWindowsAux_reconstruct text 500 50 (by norm_num)
        (by norm_num) text.length 0 ws (by omega) haux).1
      simpa using hrec

set_option maxRecDepth 100000 in
/-- Witness for C5 (amended) at the 501-period text. -/
theorem c5_chunk_roundtrip_witness :
    ∃ l, chunkTextF c5WitnessText 500 50 = some l
      ∧ reconstructChunks 50 l = c5WitnessText :=
  c5_chunk_roundtrip c5WitnessText (by decide)
